import Mathlib

/-!
Shallow embedding of `zog` (src/zog/main.py), a tool that exports a Zotero
collection to a GraphML graph.  The embedded functions are:

* `get_named_collection_key` — linear search of a collection list by name;
* `get_collection_key_from_path` — slash-path resolution by repeated flat search;
* `create_relationships` — edge extraction from item metadata, with a
  self-loop fallback when the `relations → "dc:relation"` lookup raises KeyError;
* `extract_nodes_from_relationships` — set of all edge endpoints;
* `get_node_data` — per-node metadata with a `defaultdict`-style fallback.

Python's dynamic typing in the `relations` field is modelled by `JVal`
(strings, lists, dicts) and the exceptions `KeyError` / `TypeError` /
`AttributeError` by `PyErr`; fallible code returns `Except`.
-/

namespace Zog

/-- JSON-like values carried in the `relations` field of a Zotero item:
a Python `str`, `list`, or `dict` (modelled as an association list). -/
inductive JVal where
  | str (s : String)
  | list (xs : List JVal)
  | dict (kvs : List (String × JVal))

/-- The Python exceptions observable in `create_relationships`:
`KeyError` (with the missing key), `TypeError` (subscripting a non-dict
with a string key), `AttributeError` (calling `.split` on a non-string). -/
inductive PyErr where
  | keyError (key : String)
  | typeError
  | attrError
deriving DecidableEq

/-- A Zotero collection record, as used by the resolver: its opaque `key`
and its human-readable `data.name`. -/
structure Collection where
  key : String
  name : String
deriving DecidableEq

/-- A Zotero item record, as used by `create_relationships`: its `data.key`
and the optional `data.relations` value (absent field = `none`; present
field of arbitrary shape = `some` of a `JVal`). -/
structure Item where
  key : String
  relations : Option JVal

/-- The per-node metadata record assembled by `get_node_data`. -/
structure Datum where
  item_type : String
  title : String
  url : String
deriving DecidableEq

/-- Helper for `pySplit`: split a character list at each occurrence of `sep`,
`acc` holding the (reversed) characters of the current piece. -/
def pySplitAux (sep : Char) : List Char → List Char → List (List Char)
  | [], acc => [acc.reverse]
  | c :: cs, acc =>
      if c = sep then acc.reverse :: pySplitAux sep cs []
      else pySplitAux sep cs (c :: acc)

/-- Python `s.split(sep)` for a one-character separator (the program only ever
splits on `"/"`): adjacent separators and string ends yield empty pieces, and
the result always has at least one piece (`"".split("/") == [""]`). -/
def pySplit (s : String) (sep : Char) : List String :=
  (pySplitAux sep s.toList []).map String.mk

/-- `get_named_collection_key` (main.py:94-118): scan the collection list in
order, return the key of the first collection whose name matches, else raise
`KeyError(f"{name} is not a Zotero collection")` — modelled as `Except.error`
carrying the message. -/
def get_named_collection_key : List Collection → String → Except String String
  | [], name => .error (name ++ " is not a Zotero collection")
  | c :: rest, name =>
      if c.name = name then .ok c.key else get_named_collection_key rest name

/-- The loop body of `get_collection_key_from_path`: `key` starts as `""` and
is reassigned for each path part; a `KeyError` propagates immediately. -/
def resolveSegments (collections : List Collection) :
    List String → String → Except String String
  | [], key => .ok key
  | p :: rest, _ =>
      match get_named_collection_key collections p with
      | .ok k => resolveSegments collections rest k
      | .error e => .error e

/-- `get_collection_key_from_path` (main.py:121-158): split the path on `"/"`
and resolve each part by a fresh flat search, returning the last key. -/
def get_collection_key_from_path (collections : List Collection)
    (collection_path : String) : Except String String :=
  resolveSegments collections (pySplit collection_path '/') ""

/-- Python subscripting `v[k]` with a string key: a dict yields the value or
raises `KeyError k`; a list or string raises `TypeError`. -/
def getItem : JVal → String → Except PyErr JVal
  | .dict kvs, k =>
      match kvs.lookup k with
      | some v => .ok v
      | none => .error (.keyError k)
  | .str _, _ => .error .typeError
  | .list _, _ => .error .typeError

/-- The expression `item_data["relations"]["dc:relation"]` (main.py:189-191):
an absent `relations` field raises `KeyError "relations"`; otherwise the
`"dc:relation"` subscript is evaluated on its value. -/
def lookupRelations (it : Item) : Except PyErr JVal :=
  match it.relations with
  | none => .error (.keyError "relations")
  | some v => getItem v "dc:relation"

/-- Python iteration over the looked-up value: a list yields its elements, a
string yields its characters as one-character strings, a dict yields its keys. -/
def pyIter : JVal → List JVal
  | .str s => s.toList.map (fun c => .str (String.mk [c]))
  | .list xs => xs
  | .dict kvs => kvs.map (fun kv => .str kv.1)

/-- `item_relation.split("/")[-1]` (main.py:198): the final `"/"`-delimited
segment of a string; calling `.split` on a non-string raises `AttributeError`.
Python `split` with an explicit separator never returns an empty list, so the
`getLastD` default is unreachable. -/
def splitLast : JVal → Except PyErr String
  | .str s => .ok ((pySplit s '/').getLastD "")
  | .list _ => .error .attrError
  | .dict _ => .error .attrError

/-- The inner loop of `create_relationships` (main.py:196-199): emit
`(item_key, relation_key)` for each relation value in order; an exception
aborts the whole call (outside the `try` block). -/
def emitPairs (key : String) : List JVal → Except PyErr (List (String × String))
  | [] => .ok []
  | v :: rest =>
      match splitLast v with
      | .error e => .error e
      | .ok t =>
          match emitPairs key rest with
          | .error e => .error e
          | .ok ps => .ok ((key, t) :: ps)

/-- One iteration of the outer loop of `create_relationships` (main.py:184-199):
only a `KeyError` from the lookup is caught (yielding the self-loop); any other
exception, and any exception from the iteration, propagates. -/
def processItem (it : Item) : Except PyErr (List (String × String)) :=
  match lookupRelations it with
  | .error (.keyError _) => .ok [(it.key, it.key)]
  | .error e => .error e
  | .ok rel => emitPairs it.key (pyIter rel)

/-- `create_relationships` (main.py:161-201): accumulate the pairs of each
item in order; an uncaught exception aborts the call. -/
def create_relationships : List Item → Except PyErr (List (String × String))
  | [] => .ok []
  | it :: rest =>
      match processItem it with
      | .error e => .error e
      | .ok ps =>
          match create_relationships rest with
          | .error e => .error e
          | .ok qs => .ok (ps ++ qs)

/-- `extract_nodes_from_relationships` (main.py:204-229): the set of all keys
appearing as source or target of some relationship. -/
def extract_nodes_from_relationships
    (relationships : List (String × String)) : Finset String :=
  relationships.foldl (fun s r => insert r.2 (insert r.1 s)) ∅

/-- `defaultdict(lambda: "note", record)` access (main.py:238): the stored
value when the key is present, the literal string `"note"` otherwise. -/
def fetchField (record : List (String × String)) (k : String) : String :=
  (record.lookup k).getD "note"

/-- The datum built inside the loop of `get_node_data` (main.py:237-242):
start at `{"item_type": "null", "title": "null", "url": "null"}`, then
overwrite `title`, `item_type`, `url` in that order from the fetched record
wrapped in a `defaultdict` defaulting to `"note"`. -/
def buildDatum (record : List (String × String)) : Datum :=
  let datum0 : Datum := { item_type := "null", title := "null", url := "null" }
  let datum1 : Datum := { datum0 with title := fetchField record "title" }
  let datum2 : Datum := { datum1 with item_type := fetchField record "itemType" }
  { datum2 with url := fetchField record "url" }

/-- `get_node_data` (main.py:232-246): one `(node, datum)` pair per node key,
in iteration order.  The external store `zotero.item(·)["data"]` is modelled
as a function from node keys to association lists. -/
def get_node_data (store : String → List (String × String))
    (nodes : List String) : List (String × Datum) :=
  nodes.map fun node => (node, buildDatum (store node))

/-! ### Auxiliary facts about `pySplit` -/

/-- `pySplitAux` always produces at least one piece. -/
theorem pySplitAux_ne_nil (sep : Char) (cs acc : List Char) :
    pySplitAux sep cs acc ≠ [] := by
  induction cs generalizing acc with
  | nil => simp [pySplitAux]
  | cons c cs ih =>
      rw [pySplitAux]
      split
      · simp
      · exact ih (c :: acc)

/-- `pySplit` never returns the empty list, matching Python `str.split` with
an explicit separator. -/
theorem pySplit_ne_nil (s : String) (sep : Char) : pySplit s sep ≠ [] := by
  rw [pySplit]
  simpa using pySplitAux_ne_nil sep s.toList []

/-- The last element of a nonempty list is a member of it. -/
theorem getLastD_mem {α : Type} (l : List α) (d : α) (h : l ≠ []) :
    l.getLastD d ∈ l := by
  induction l generalizing d with
  | nil => exact absurd rfl h
  | cons a l ih =>
      cases l with
      | nil => simp [List.getLastD]
      | cons b l2 =>
          have := ih b (by simp)
          simp only [List.getLastD] at this ⊢
          exact List.mem_cons_of_mem a this

/-! ### Lemmas about the path resolver -/

/-- `get_named_collection_key` succeeds exactly when some collection has the
requested name. -/
theorem get_named_ok_iff (cs : List Collection) (name : String) :
    (∃ k, get_named_collection_key cs name = .ok k) ↔ ∃ c ∈ cs, c.name = name := by
  induction cs with
  | nil => simp [get_named_collection_key]
  | cons c rest ih =>
      rw [get_named_collection_key]
      by_cases hc : c.name = name
      · simp [hc]
      · simp only [if_neg hc, ih, List.mem_cons]
        constructor
        · rintro ⟨c', hmem, hname⟩
          exact ⟨c', Or.inr hmem, hname⟩
        · rintro ⟨c', hmem, hname⟩
          rcases hmem with rfl | hmem
          · exact absurd hname hc
          · exact ⟨c', hmem, hname⟩

/-- When `get_named_collection_key` succeeds, the returned key is the key of
some collection in the list whose name matches. -/
theorem get_named_mem (cs : List Collection) (name k : String)
    (h : get_named_collection_key cs name = .ok k) :
    ∃ c ∈ cs, c.name = name ∧ c.key = k := by
  induction cs with
  | nil => simp [get_named_collection_key] at h
  | cons c rest ih =>
      rw [get_named_collection_key] at h
      by_cases hc : c.name = name
      · rw [if_pos hc] at h
        exact ⟨c, List.mem_cons_self c rest, hc, (Except.ok.injEq _ _ ▸ h).symm ▸ rfl⟩
      · rw [if_neg hc] at h
        obtain ⟨c', hmem, hname, hkey⟩ := ih h
        exact ⟨c', List.mem_cons_of_mem c hmem, hname, hkey⟩

/-- When no collection has the requested name, `get_named_collection_key`
raises `KeyError` with the diagnostic naming the missing segment. -/
theorem get_named_err (cs : List Collection) (name : String)
    (h : ∀ c ∈ cs, c.name ≠ name) :
    get_named_collection_key cs name = .error (name ++ " is not a Zotero collection") := by
  induction cs with
  | nil => rfl
  | cons c rest ih =>
      rw [get_named_collection_key, if_neg (h c (List.mem_cons_self c rest))]
      exact ih fun c' hmem => h c' (List.mem_cons_of_mem c hmem)

/-- When every segment resolves, the loop returns the resolution of the last
segment, independently of the incoming accumulator. -/
theorem resolveSegments_all_ok (cs : List Collection) (parts : List String)
    (hne : parts ≠ [])
    (h : ∀ seg ∈ parts, ∃ c ∈ cs, c.name = seg) (k0 : String) :
    resolveSegments cs parts k0 =
      get_named_collection_key cs (parts.getLastD "") := by
  induction parts generalizing k0 with
  | nil => exact absurd rfl hne
  | cons p rest ih =>
      obtain ⟨k, hk⟩ := (get_named_ok_iff cs p).2 (h p (List.mem_cons_self p rest))
      cases rest with
      | nil =>
          rw [resolveSegments, hk, List.getLastD_cons, List.getLastD_nil]
          exact hk.symm
      | cons q rest2 =>
          rw [resolveSegments, hk]
          have hrec := ih (by simp)
            (fun seg hseg => h seg (List.mem_cons_of_mem p hseg)) k
          rw [List.getLastD_cons] at hrec
          rw [List.getLastD_cons, List.getLastD_cons]
          exact hrec

/-- When the first unresolvable segment is `seg`, the loop raises the
`KeyError` diagnostic naming `seg`, independently of the accumulator. -/
theorem resolveSegments_first_err (cs : List Collection) (parts : List String)
    (seg : String)
    (hfind : parts.find? (fun s => !(cs.any (fun c => c.name == s))) = some seg)
    (k0 : String) :
    resolveSegments cs parts k0 =
      .error (seg ++ " is not a Zotero collection") := by
  induction parts generalizing k0 with
  | nil => simp [List.find?] at hfind
  | cons p rest ih =>
      by_cases hp : (!(cs.any (fun c => c.name == p))) = true
      · rw [@List.find?_cons_of_pos String (fun s => !(cs.any (fun c => c.name == s)))
          p rest hp] at hfind
        have hseg : p = seg := by simpa using hfind
        subst hseg
        have hnone : ∀ c ∈ cs, c.name ≠ p := by
          simpa using hp
        rw [resolveSegments, get_named_err cs p hnone]
      · rw [@List.find?_cons_of_neg String (fun s => !(cs.any (fun c => c.name == s)))
          p rest hp] at hfind
        have hsome : ∃ c ∈ cs, c.name = p := by
          simpa using hp
        obtain ⟨k, hk⟩ := (get_named_ok_iff cs p).2 hsome
        rw [resolveSegments, hk]
        exact ih hfind k

/-! ### Claim theorems for the path resolver -/

/-- C1: for every collection list and every slash-separated path string all of
whose segments name some collection in the list,
`get_collection_key_from_path` returns the key of the collection whose name
matches the last path segment, found by a fresh linear search over the entire
flat collection list for each segment, ignoring parent/child containment. -/
theorem path_resolution_resolves_last_segment (cs : List Collection)
    (path : String)
    (h : ∀ seg ∈ pySplit path '/', ∃ c ∈ cs, c.name = seg) :
    get_collection_key_from_path cs path =
      get_named_collection_key cs ((pySplit path '/').getLastD "") ∧
    ∃ c ∈ cs, c.name = (pySplit path '/').getLastD "" ∧
      get_collection_key_from_path cs path = .ok c.key := by
  have hne := pySplit_ne_nil path '/'
  have h1 : get_collection_key_from_path cs path =
      get_named_collection_key cs ((pySplit path '/').getLastD "") :=
    resolveSegments_all_ok cs (pySplit path '/') hne h ""
  refine ⟨h1, ?_⟩
  obtain ⟨k, hk⟩ := (get_named_ok_iff cs _).2 (h _ (getLastD_mem _ "" hne))
  obtain ⟨c, hmem, hname, hkey⟩ := get_named_mem cs _ k hk
  exact ⟨c, hmem, hname, by rw [h1, hk, hkey]⟩

/-- Witness for C1 at the spec's example: collections
`[{key:"A1",name:"Projects"},{key:"A2",name:"Data"}]`, path `"Projects/Data"`
resolves to the key `"A2"` of the collection named by the last segment. -/
theorem path_resolution_resolves_last_segment_witness :
    ∃ c ∈ [Collection.mk "A1" "Projects", Collection.mk "A2" "Data"],
      c.name = (pySplit "Projects/Data" '/').getLastD "" ∧
      get_collection_key_from_path
        [Collection.mk "A1" "Projects", Collection.mk "A2" "Data"]
        "Projects/Data" = .ok c.key :=
  (path_resolution_resolves_last_segment
    [Collection.mk "A1" "Projects", Collection.mk "A2" "Data"]
    "Projects/Data" (by decide)).2

/-- C8: path resolution succeeds (returns a key) exactly when every segment's
name is present in the collection list, and when some segment is missing it
fails with a not-found error whose diagnostic identifies the first missing
segment. -/
theorem path_resolution_error_behavior (cs : List Collection) (path : String) :
    ((∃ k, get_collection_key_from_path cs path = .ok k) ↔
      ∀ seg ∈ pySplit path '/', ∃ c ∈ cs, c.name = seg) ∧
    (∀ seg,
      (pySplit path '/').find? (fun s => !(cs.any (fun c => c.name == s))) = some seg →
      get_collection_key_from_path cs path =
        .error (seg ++ " is not a Zotero collection")) := by
  constructor
  · constructor
    · rintro ⟨k, hk⟩
      by_contra hnot
      push_neg at hnot
      obtain ⟨seg, hmem, hforall⟩ := hnot
      have hsome : ((pySplit path '/').find?
          (fun s => !(cs.any (fun c => c.name == s)))).isSome := by
        rw [List.find?_isSome]
        exact ⟨seg, hmem, by simpa using hforall⟩
      obtain ⟨seg0, hfind⟩ := Option.isSome_iff_exists.mp hsome
      have herr := resolveSegments_first_err cs (pySplit path '/') seg0 hfind ""
      have hk' : resolveSegments cs (pySplit path '/') "" = .ok k := hk
      rw [herr] at hk'
      exact Except.noConfusion hk'
    · intro hall
      have hne := pySplit_ne_nil path '/'
      have h1 := resolveSegments_all_ok cs (pySplit path '/') hne hall ""
      obtain ⟨k, hk⟩ := (get_named_ok_iff cs _).2 (hall _ (getLastD_mem _ "" hne))
      exact ⟨k, h1.trans hk⟩
  · intro seg hfind
    exact resolveSegments_first_err cs (pySplit path '/') seg hfind ""

/-- Witness for C8: with only a collection named `"Projects"`, the path
`"Projects/Data"` fails with the diagnostic naming the missing segment
`"Data"`. -/
theorem path_resolution_error_behavior_witness :
    get_collection_key_from_path [Collection.mk "A1" "Projects"] "Projects/Data" =
      .error ("Data" ++ " is not a Zotero collection") :=
  (path_resolution_error_behavior [Collection.mk "A1" "Projects"]
    "Projects/Data").2 "Data" rfl

/-- C10: when two or more collections share the same name,
`get_named_collection_key` returns the key of the first matching collection in
list order. -/
theorem first_match_wins (pre post : List Collection) (c : Collection)
    (name : String) (hc : c.name = name) (hpre : ∀ c' ∈ pre, c'.name ≠ name) :
    get_named_collection_key (pre ++ c :: post) name = .ok c.key := by
  induction pre with
  | nil => rw [List.nil_append, get_named_collection_key, if_pos hc]
  | cons d pre ih =>
      rw [List.cons_append, get_named_collection_key,
        if_neg (hpre d (List.mem_cons_self d pre))]
      exact ih fun c' hmem => hpre c' (List.mem_cons_of_mem d hmem)

/-- Witness for C10: with two collections named `"Dup"`, the earliest-listed
one (key `"K1"`) is returned. -/
theorem first_match_wins_witness :
    get_named_collection_key
      [Collection.mk "K0" "Other", Collection.mk "K1" "Dup", Collection.mk "K2" "Dup"]
      "Dup" = .ok "K1" :=
  first_match_wins [Collection.mk "K0" "Other"] [Collection.mk "K2" "Dup"]
    (Collection.mk "K1" "Dup") "Dup" rfl (by decide)

/-! ### Lemmas about the relationship extractor -/

/-- `emitPairs` on a list of strings emits, in order, one pair per string,
keyed by the source key, with the final `"/"`-segment as target. -/
theorem emitPairs_map_str (key : String) (uris : List String) :
    emitPairs key (uris.map JVal.str) =
      .ok (uris.map fun u => (key, (pySplit u '/').getLastD "")) := by
  induction uris with
  | nil => rfl
  | cons u uris ih =>
      rw [List.map_cons, emitPairs]
      rw [List.map_cons]
      rw [show splitLast (JVal.str u) = .ok ((pySplit u '/').getLastD "") from rfl]
      rw [ih]

/-- When the `relations → "dc:relation"` lookup raises `KeyError`, the item
yields exactly the single self-loop. -/
theorem processItem_self_loop (it : Item) (m : String)
    (h : lookupRelations it = .error (.keyError m)) :
    processItem it = .ok [(it.key, it.key)] := by
  rw [processItem, h]

/-- Every pair `emitPairs` yields has the given source key as first
component. -/
theorem emitPairs_fst (key : String) (vs : List JVal)
    (ps : List (String × String)) (h : emitPairs key vs = .ok ps) :
    ∀ p ∈ ps, p.1 = key := by
  induction vs generalizing ps with
  | nil =>
      have h' : Except.ok ([] : List (String × String)) = .ok ps := h
      cases h'
      simp
  | cons v vs ih =>
      rw [emitPairs] at h
      rcases hs : splitLast v with e | t
      · rw [hs] at h
        have h' : (Except.error e : Except PyErr (List (String × String))) = .ok ps := h
        cases h'
      · rw [hs] at h
        rcases he : emitPairs key vs with e | qs
        · rw [he] at h
          have h' : (Except.error e : Except PyErr (List (String × String))) = .ok ps := h
          cases h'
        · rw [he] at h
          have h' : Except.ok ((key, t) :: qs) = .ok ps := h
          cases h'
          intro p hp
          rcases List.mem_cons.mp hp with rfl | hp
          · rfl
          · exact ih qs he p hp

/-- Every pair an item yields has that item's key as its source. -/
theorem processItem_fst (it : Item) (ps : List (String × String))
    (h : processItem it = .ok ps) : ∀ p ∈ ps, p.1 = it.key := by
  rw [processItem] at h
  rcases hl : lookupRelations it with e | rel
  · rw [hl] at h
    cases e with
    | keyError m =>
        have h' : Except.ok [(it.key, it.key)] = .ok ps := h
        cases h'
        simp
    | typeError =>
        have h' : (Except.error PyErr.typeError :
            Except PyErr (List (String × String))) = .ok ps := h
        cases h'
    | attrError =>
        have h' : (Except.error PyErr.attrError :
            Except PyErr (List (String × String))) = .ok ps := h
        cases h'
  · rw [hl] at h
    exact emitPairs_fst it.key (pyIter rel) ps h

/-- Each item of a successful `create_relationships` run itself succeeds, and
its pairs all appear in the overall output. -/
theorem create_relationships_sublist (items : List Item)
    (ps : List (String × String)) (it : Item)
    (hok : create_relationships items = .ok ps) (hmem : it ∈ items) :
    ∃ qs, processItem it = .ok qs ∧ ∀ p ∈ qs, p ∈ ps := by
  induction items generalizing ps with
  | nil => cases hmem
  | cons jt items ih =>
      rw [create_relationships] at hok
      rcases hj : processItem jt with e | as
      · rw [hj] at hok
        have h' : (Except.error e : Except PyErr (List (String × String))) = .ok ps := hok
        cases h'
      · rw [hj] at hok
        rcases hr : create_relationships items with e | bs
        · rw [hr] at hok
          have h' : (Except.error e : Except PyErr (List (String × String))) = .ok ps := hok
          cases h'
        · rw [hr] at hok
          have h' : Except.ok (as ++ bs) = .ok ps := hok
          cases h'
          rcases List.mem_cons.mp hmem with rfl | hmem
          · exact ⟨as, hj, fun p hp => List.mem_append_left bs hp⟩
          · obtain ⟨qs, hq, hsub⟩ := ih bs hr hmem
            exact ⟨qs, hq, fun p hp => List.mem_append_right as (hsub p hp)⟩

/-- `create_relationships` distributes over list append when both halves
succeed. -/
theorem create_relationships_append (xs ys : List Item)
    (ps qs : List (String × String))
    (hx : create_relationships xs = .ok ps)
    (hy : create_relationships ys = .ok qs) :
    create_relationships (xs ++ ys) = .ok (ps ++ qs) := by
  induction xs generalizing ps with
  | nil =>
      have h' : Except.ok ([] : List (String × String)) = .ok ps := hx
      cases h'
      simpa using hy
  | cons it xs ih =>
      rw [create_relationships] at hx
      rcases hj : processItem it with e | as
      · rw [hj] at hx
        have h' : (Except.error e : Except PyErr (List (String × String))) = .ok ps := hx
        cases h'
      · rw [hj] at hx
        rcases hr : create_relationships xs with e | bs
        · rw [hr] at hx
          have h' : (Except.error e : Except PyErr (List (String × String))) = .ok ps := hx
          cases h'
        · rw [hr] at hx
          have h' : Except.ok (as ++ bs) = .ok ps := hx
          cases h'
          rw [List.cons_append, create_relationships, hj, ih bs hr]
          rw [List.append_assoc]

/-- Membership in the endpoint-set fold, with a generalized accumulator. -/
theorem mem_endpoint_foldl (rels : List (String × String)) (s : Finset String)
    (x : String) :
    x ∈ rels.foldl (fun s r => insert r.2 (insert r.1 s)) s ↔
      x ∈ s ∨ ∃ p ∈ rels, p.1 = x ∨ p.2 = x := by
  induction rels generalizing s with
  | nil => simp
  | cons r rels ih =>
      rw [List.foldl_cons, ih]
      constructor
      · rintro (hx | ⟨p, hp, hpx⟩)
        · rcases Finset.mem_insert.mp hx with rfl | hx2
          · exact Or.inr ⟨r, List.mem_cons_self r rels, Or.inr rfl⟩
          · rcases Finset.mem_insert.mp hx2 with rfl | hx3
            · exact Or.inr ⟨r, List.mem_cons_self r rels, Or.inl rfl⟩
            · exact Or.inl hx3
        · exact Or.inr ⟨p, List.mem_cons_of_mem r hp, hpx⟩
      · rintro (hx | ⟨p, hp, hpx⟩)
        · exact Or.inl (Finset.mem_insert_of_mem (Finset.mem_insert_of_mem hx))
        · rcases List.mem_cons.mp hp with rfl | hp2
          · rcases hpx with h1 | h2
            · subst h1
              exact Or.inl (Finset.mem_insert_of_mem (Finset.mem_insert_self _ _))
            · subst h2
              exact Or.inl (Finset.mem_insert_self _ _)
          · exact Or.inr ⟨p, hp2, hpx⟩

/-! ### Claim theorems for the relationship extractor and node enumerator -/

/-- C7: for every list of `(source, target)` pairs,
`extract_nodes_from_relationships` returns exactly the set of all distinct
keys appearing as either source or target of some pair — no more, no fewer. -/
theorem nodes_are_edge_endpoints (rels : List (String × String)) (x : String) :
    x ∈ extract_nodes_from_relationships rels ↔
      ∃ p ∈ rels, p.1 = x ∨ p.2 = x := by
  unfold extract_nodes_from_relationships
  rw [mem_endpoint_foldl]
  simp

/-- C2 (amended): in a successful `create_relationships` run, every item that
contributes at least one pair — in particular every item whose
`relations → "dc:relation"` lookup raises `KeyError`, which contributes its
self-loop — has its key in the node set; an item whose relation list is
present but empty contributes no pair and is not covered. -/
theorem nonempty_contribution_key_in_nodes (items : List Item)
    (ps : List (String × String)) (hok : create_relationships items = .ok ps)
    (it : Item) (hmem : it ∈ items) (qs : List (String × String))
    (hq : processItem it = .ok qs) (hne : qs ≠ []) :
    it.key ∈ extract_nodes_from_relationships ps := by
  obtain ⟨qs', hq', hsub⟩ := create_relationships_sublist items ps it hok hmem
  rw [hq] at hq'
  injection hq' with hqq
  subst hqq
  obtain ⟨p, hp⟩ := List.exists_mem_of_ne_nil qs hne
  have hfst := processItem_fst it qs hq p hp
  unfold extract_nodes_from_relationships
  rw [mem_endpoint_foldl]
  exact Or.inr ⟨p, hsub p hp, Or.inl hfst⟩

/-- Counterexample to C2 as stated: an item whose `"dc:relation"` value is
present but empty produces no pair at all, so its key is absent from the node
set. -/
theorem every_item_key_in_nodes_counterexample :
    create_relationships
      [Item.mk "X1" (some (.dict [("dc:relation", .list [])]))] = .ok [] ∧
    ("X1" : String) ∉ extract_nodes_from_relationships [] := by
  refine ⟨rfl, ?_⟩
  unfold extract_nodes_from_relationships
  simp

/-- Witness for C2 (amended): an item with no relations field self-loops and
its key lands in the node set. -/
theorem nonempty_contribution_key_in_nodes_witness :
    ("X1" : String) ∈ extract_nodes_from_relationships [("X1", "X1")] :=
  nonempty_contribution_key_in_nodes [Item.mk "X1" none] [("X1", "X1")] rfl
    (Item.mk "X1" none) (List.mem_singleton.mpr rfl) [("X1", "X1")] rfl
    (by simp)

/-- C4 (amended): only a `KeyError` from the
`relations → "dc:relation"` lookup (relations field absent, or a dict lacking
`"dc:relation"`) silently degrades to the single self-loop; a relations value
of non-dict shape makes the lookup raise `TypeError`, which propagates. -/
theorem keyError_fallback_self_loop (it : Item) :
    (∀ m, lookupRelations it = .error (.keyError m) →
      processItem it = .ok [(it.key, it.key)]) ∧
    (lookupRelations it = .error .typeError →
      processItem it = .error .typeError) := by
  constructor
  · intro m h
    rw [processItem, h]
  · intro h
    rw [processItem, h]

/-- Counterexample to C4 as stated: a list-shaped relations field is an
unexpected shape under which the lookup yields no list of URIs, yet
`create_relationships` raises `TypeError` instead of degrading to the
self-loop. -/
theorem malformed_relations_counterexample :
    create_relationships [Item.mk "X1" (some (.list []))] =
      .error .typeError ∧
    (.error .typeError : Except PyErr (List (String × String))) ≠
      .ok [("X1", "X1")] :=
  ⟨rfl, fun h => Except.noConfusion h⟩

/-- Witness for C4 (amended): a dict-shaped relations field lacking
`"dc:relation"` raises `KeyError` and degrades to the self-loop. -/
theorem keyError_fallback_self_loop_witness :
    processItem (Item.mk "X1" (some (.dict []))) = .ok [("X1", "X1")] :=
  (keyError_fallback_self_loop (Item.mk "X1" (some (.dict [])))).1
    "dc:relation" rfl

/-- C5: for every list of items and every item in it lacking a relations
field, `create_relationships` emits exactly one pair for that item, the
self-loop `(item key, item key)`, and nothing else for that item. -/
theorem missing_relations_self_loop (it : Item) (hnone : it.relations = none)
    (pre post : List Item) (ps qs : List (String × String))
    (hp : create_relationships pre = .ok ps)
    (hq : create_relationships post = .ok qs) :
    create_relationships (pre ++ it :: post) =
      .ok (ps ++ (it.key, it.key) :: qs) := by
  have hl : lookupRelations it = .error (.keyError "relations") := by
    rw [lookupRelations, hnone]
  have hpi : processItem it = .ok [(it.key, it.key)] :=
    processItem_self_loop it "relations" hl
  have hmid : create_relationships (it :: post) = .ok ((it.key, it.key) :: qs) := by
    rw [create_relationships, hpi, hq]
    rfl
  exact create_relationships_append pre (it :: post) ps
    ((it.key, it.key) :: qs) hp hmid

/-- Witness for C5 at the spec's example: item key `"X1"` with no relations
field yields exactly the edge `("X1","X1")`. -/
theorem missing_relations_self_loop_witness :
    create_relationships [Item.mk "X1" none] = .ok [("X1", "X1")] :=
  missing_relations_self_loop (Item.mk "X1" none) rfl [] [] [] [] rfl rfl

/-- C6: for every item with a list of relation URIs, `processItem` (the body
of `create_relationships` for that item) emits, for each URI in declared
order, the pair `(item key, target key)` where the target key is the final
`"/"`-delimited segment of that URI. -/
theorem relation_targets_last_segment (it : Item) (uris : List String)
    (h : lookupRelations it = .ok (.list (uris.map JVal.str))) :
    processItem it =
      .ok (uris.map fun u => (it.key, (pySplit u '/').getLastD "")) := by
  rw [processItem, h]
  exact emitPairs_map_str it.key uris

/-- Witness for C6 at the spec's example: relation URI
`"http://zotero.org/users/1/items/ABCD"` yields target key `"ABCD"`. -/
theorem relation_targets_last_segment_witness :
    processItem (Item.mk "I1" (some (.dict [("dc:relation",
      .list [.str "http://zotero.org/users/1/items/ABCD"])]))) =
      .ok [("I1", "ABCD")] :=
  relation_targets_last_segment
    (Item.mk "I1" (some (.dict [("dc:relation",
      .list [.str "http://zotero.org/users/1/items/ABCD"])])))
    ["http://zotero.org/users/1/items/ABCD"] rfl

/-! ### Lemmas and claim theorems for the node metadata fetcher -/

/-- Every datum produced by `get_node_data` has each field equal to the
fetched value when the key is present in the record, and to the `defaultdict`
fallback `"note"` when it is absent. -/
theorem get_node_data_fields (store : String → List (String × String))
    (nodes : List String) (node : String) (d : Datum)
    (h : (node, d) ∈ get_node_data store nodes) :
    d.title = ((store node).lookup "title").getD "note" ∧
    d.item_type = ((store node).lookup "itemType").getD "note" ∧
    d.url = ((store node).lookup "url").getD "note" := by
  unfold get_node_data at h
  rw [List.mem_map] at h
  obtain ⟨n, hn, heq⟩ := h
  simp only [Prod.mk.injEq] at heq
  obtain ⟨rfl, rfl⟩ := heq
  exact ⟨rfl, rfl, rfl⟩

/-- C3 (amended): each datum field starts as the literal string `"null"` but
is then unconditionally overwritten: it becomes the fetched value when
present, and the `defaultdict` fallback `"note"` — not `"null"` — when the
corresponding key is absent upstream. -/
theorem datum_absent_field_becomes_note
    (store : String → List (String × String)) (nodes : List String)
    (node : String) (d : Datum) (h : (node, d) ∈ get_node_data store nodes) :
    d.title = ((store node).lookup "title").getD "note" ∧
    d.item_type = ((store node).lookup "itemType").getD "note" ∧
    d.url = ((store node).lookup "url").getD "note" :=
  get_node_data_fields store nodes node d h

/-- Counterexample to C3 as stated: for a fetched record lacking all three
keys, every field ends as `"note"`, not `"null"`. -/
theorem null_default_counterexample :
    get_node_data (fun _ => []) ["N1"] =
      [("N1", { item_type := "note", title := "note", url := "note" })] ∧
    ("note" : String) ≠ "null" :=
  ⟨rfl, by decide⟩

/-- Witness for C3 (amended): a record with only `"title"` present gives the
fetched title and `"note"` for the two absent fields. -/
theorem datum_absent_field_becomes_note_witness :
    ("T" : String) =
      (([(("title" : String), ("T" : String))]).lookup "title").getD "note" ∧
    ("note" : String) =
      (([(("title" : String), ("T" : String))]).lookup "itemType").getD "note" ∧
    ("note" : String) =
      (([(("title" : String), ("T" : String))]).lookup "url").getD "note" :=
  datum_absent_field_becomes_note (fun _ => [("title", "T")]) ["N1"] "N1"
    (Datum.mk "note" "T" "note") (by decide)

/-- C9: every metadata record returned by `get_node_data` has all three
fields `item_type`, `title`, `url` present, each either the value fetched
from the store or one of the fallback strings `"null"` / `"note"`. -/
theorem node_metadata_fields_total
    (store : String → List (String × String)) (nodes : List String)
    (node : String) (d : Datum) (h : (node, d) ∈ get_node_data store nodes) :
    ((∃ v, (store node).lookup "title" = some v ∧ d.title = v) ∨
      d.title = "null" ∨ d.title = "note") ∧
    ((∃ v, (store node).lookup "itemType" = some v ∧ d.item_type = v) ∨
      d.item_type = "null" ∨ d.item_type = "note") ∧
    ((∃ v, (store node).lookup "url" = some v ∧ d.url = v) ∨
      d.url = "null" ∨ d.url = "note") := by
  obtain ⟨h1, h2, h3⟩ := get_node_data_fields store nodes node d h
  refine ⟨?_, ?_, ?_⟩
  · rcases hv : (store node).lookup "title" with _ | v
    · rw [hv] at h1
      exact Or.inr (Or.inr h1)
    · rw [hv] at h1
      exact Or.inl ⟨v, rfl, h1⟩
  · rcases hv : (store node).lookup "itemType" with _ | v
    · rw [hv] at h2
      exact Or.inr (Or.inr h2)
    · rw [hv] at h2
      exact Or.inl ⟨v, rfl, h2⟩
  · rcases hv : (store node).lookup "url" with _ | v
    · rw [hv] at h3
      exact Or.inr (Or.inr h3)
    · rw [hv] at h3
      exact Or.inl ⟨v, rfl, h3⟩

/-- Witness for C9 on an empty fetched record: all three fields fall back to
`"note"`. -/
theorem node_metadata_fields_total_witness :
    ((∃ v, (none : Option String) = some v ∧ ("note" : String) = v) ∨
      ("note" : String) = "null" ∨ ("note" : String) = "note") ∧
    ((∃ v, (none : Option String) = some v ∧ ("note" : String) = v) ∨
      ("note" : String) = "null" ∨ ("note" : String) = "note") ∧
    ((∃ v, (none : Option String) = some v ∧ ("note" : String) = v) ∨
      ("note" : String) = "null" ∨ ("note" : String) = "note") :=
  node_metadata_fields_total (fun _ => []) ["N2"] "N2"
    (Datum.mk "note" "note" "note") (by decide)

end Zog
